import Mathlib

/-!
Formal model of the `fatima_wrf` preprocessing pipeline (`src/preprocess.py`).

The pipeline reads raw WRF output, computes derived variables, regrids all
3-D variables from the native terrain-following vertical coordinate onto
fixed target levels by linear interpolation against a reference coordinate
(geopotential height or air pressure), reassembles 2-D and 3-D variables
into one dataset, and attaches provenance attributes.

Scalars are modelled exactly: rationals (`ℚ`) for the interpolation and
dataset plumbing, reals (`ℝ`) for the physical formulas that need square
roots, powers and trigonometry.  Missing values (floating-point NaN in the
implementation) are modelled as `Option` `none`.
-/

namespace FatimaWrf

/-! ## Vertical interpolation kernel

`_to_levs` in `src/preprocess.py` regrids each 3-D variable with
`xgcm.Grid.transform(da, "Z", levs, target_data=ds[lev_type], method="linear")`.
With the default `mask_edges=True` this is, per horizontal column and time
step: numpy-style 1-D linear interpolation of the variable against the
reference coordinate, with target levels strictly outside the range of the
reference column masked to missing (no extrapolation).
-/

/-- Linear interpolation of the point `(t, ?)` on the segment through
`(x0, y0)` and `(x1, y1)`, exactly as the numpy kernel computes it:
`y0 + slope * (t - x0)`. -/
def lin_interp (x0 x1 y0 y1 t : ℚ) : ℚ :=
  y0 + (y1 - y0) * (t - x0) / (x1 - x0)

/-- Number of entries of the reference column `theta` that are `≤ t`
(`numpy.searchsorted(theta, t, side="right")` for a sorted column). -/
def searchCount (theta : List ℚ) (t : ℚ) : ℕ :=
  theta.countP (fun x => decide (x ≤ t))

/-- Per-column regridding kernel for an increasing reference column:
models `xgcm.Grid.transform(..., method="linear")` (with its default
`mask_edges=True`) on one column: linear interpolation of `phi` against
`theta`, with targets strictly outside the range of `theta` mapped to
missing (`none`, the model of NaN). -/
def interp_point_inc (phi theta : List ℚ) (t : ℚ) : Option ℚ :=
  if theta.length = 0 then none
  else if t < theta.getD 0 0 ∨ theta.getD (theta.length - 1) 0 < t then none
  else if searchCount theta t - 1 + 1 = theta.length then
    some (phi.getD (theta.length - 1) 0)
  else some (lin_interp (theta.getD (searchCount theta t - 1) 0)
    (theta.getD (searchCount theta t - 1 + 1) 0)
    (phi.getD (searchCount theta t - 1) 0)
    (phi.getD (searchCount theta t - 1 + 1) 0) t)

/-- Per-column regridding kernel.  A decreasing reference column (air
pressure decreases with model level) is handled by reversing the column
together with its data, as the transform library does. -/
def interp_point (phi theta : List ℚ) (t : ℚ) : Option ℚ :=
  if theta.getD 0 0 ≤ theta.getD (theta.length - 1) 0 then
    interp_point_inc phi theta t
  else interp_point_inc phi.reverse theta.reverse t

/-- One column of a regridded 3-D variable: the kernel applied to every
target level. -/
def interp_column (phi theta : List ℚ) (levs : List ℚ) : List (Option ℚ) :=
  levs.map (interp_point phi theta)

/-- The mathematically exact linear interpolation between the two bracketing
native levels, written as the specification states it. -/
def spec_linear_interp (x0 x1 y0 y1 t : ℚ) : ℚ :=
  y0 + (t - x0) / (x1 - x0) * (y1 - y0)

theorem getD_eq_get {l : List ℚ} {n : ℕ} (h : n < l.length) (d : ℚ) :
    l.getD n d = l.get ⟨n, h⟩ := by
  simp [List.getD_eq_getElem?_getD, List.getElem?_eq_getElem h]

/-- Characterization of `searchCount` on a strictly sorted column: the
entries `≤ t` are exactly the first `searchCount theta t` entries. -/
theorem searchCount_char (t : ℚ) :
    ∀ (theta : List ℚ), theta.Sorted (· < ·) →
      ∀ i (h : i < theta.length),
        (theta.get ⟨i, h⟩ ≤ t ↔ i < searchCount theta t) := by
  intro theta
  induction theta with
  | nil => intro _ i h; simp at h
  | cons a l ih =>
    intro hsort i h
    rw [List.sorted_cons] at hsort
    obtain ⟨ha, hl⟩ := hsort
    unfold searchCount at *
    rw [List.countP_cons]
    cases i with
    | zero =>
      simp only [List.get]
      by_cases hat : a ≤ t
      · simp [hat]
      · have hcl : l.countP (fun x => decide (x ≤ t)) = 0 := by
          rw [List.countP_eq_zero]
          intro b hb
          have : a < b := ha b hb
          simp only [decide_eq_true_eq]
          intro hbt
          exact hat (le_of_lt (lt_of_lt_of_le this hbt))
        simp [hat, hcl]
    | succ i =>
      simp only [List.get]
      have h' : i < l.length := by simpa using h
      by_cases hat : a ≤ t
      · rw [ih hl i h']
        simp [hat, Nat.succ_lt_succ_iff]
      · have hcl : l.countP (fun x => decide (x ≤ t)) = 0 := by
          rw [List.countP_eq_zero]
          intro b hb
          have : a < b := ha b hb
          simp only [decide_eq_true_eq]
          intro hbt
          exact hat (le_of_lt (lt_of_lt_of_le this hbt))
        have hget : l.get ⟨i, h'⟩ ∈ l := List.get_mem l i h'
        have : a < l.get ⟨i, h'⟩ := ha _ hget
        constructor
        · intro hle
          exact absurd (le_of_lt (lt_of_lt_of_le this hle)) hat
        · intro hc
          simp [hat, hcl] at hc

theorem sorted_getD_le {theta : List ℚ} (hs : theta.Sorted (· < ·))
    {i j : ℕ} (hij : i ≤ j) (hj : j < theta.length) :
    theta.getD i 0 ≤ theta.getD j 0 := by
  have hi : i < theta.length := lt_of_le_of_lt hij hj
  rw [getD_eq_get hi, getD_eq_get hj]
  rcases lt_or_eq_of_le hij with h | h
  · exact le_of_lt ((List.pairwise_iff_get.mp hs) ⟨i, hi⟩ ⟨j, hj⟩ h)
  · subst h
    rfl

theorem searchCount_char_getD {theta : List ℚ} (hs : theta.Sorted (· < ·))
    {t : ℚ} {i : ℕ} (h : i < theta.length) :
    theta.getD i 0 ≤ t ↔ i < searchCount theta t := by
  rw [getD_eq_get h]
  exact searchCount_char t theta hs i h

theorem searchCount_le_length (theta : List ℚ) (t : ℚ) :
    searchCount theta t ≤ theta.length :=
  List.countP_le_length _

theorem lin_interp_eq_spec (x0 x1 y0 y1 t : ℚ) :
    lin_interp x0 x1 y0 y1 t = spec_linear_interp x0 x1 y0 y1 t := by
  unfold lin_interp spec_linear_interp
  ring

theorem lin_interp_at_node (x0 x1 y0 y1 : ℚ) :
    lin_interp x0 x1 y0 y1 x0 = y0 := by
  unfold lin_interp
  ring

/-- C1: for every 3-D variable and every target level strictly within the
range of the reference coordinate at a given column and time step, the
vertical regridder produces exactly the mathematically exact linear
interpolation between the two bracketing native levels; a target level equal
to an existing native level reproduces that level's original value exactly. -/
theorem c1_regrid_exact_linear (phi theta : List ℚ)
    (hsort : theta.Sorted (· < ·)) (hlen : phi.length = theta.length) :
    (∀ t, theta.getD 0 0 < t → t < theta.getD (theta.length - 1) 0 →
      ∃ j, j + 1 < theta.length ∧ theta.getD j 0 ≤ t ∧ t < theta.getD (j + 1) 0 ∧
        interp_point phi theta t =
          some (spec_linear_interp (theta.getD j 0) (theta.getD (j + 1) 0)
            (phi.getD j 0) (phi.getD (j + 1) 0) t)) ∧
    (∀ i, i < theta.length →
      interp_point phi theta (theta.getD i 0) = some (phi.getD i 0)) := by
  constructor
  · intro t hlo hhi
    have hne : theta.length ≠ 0 := by
      intro h0
      have : theta = [] := List.length_eq_zero.mp h0
      subst this
      simp only [List.getD] at hlo hhi
      norm_num at hlo hhi
      linarith
    have hl1 : theta.length - 1 < theta.length := by omega
    have horient : theta.getD 0 0 ≤ theta.getD (theta.length - 1) 0 :=
      sorted_getD_le hsort (Nat.zero_le _) hl1
    have h0len : 0 < theta.length := Nat.pos_of_ne_zero hne
    have hc0 : 0 < searchCount theta t :=
      (searchCount_char_getD hsort h0len).mp (le_of_lt hlo)
    have hcn : searchCount theta t ≤ theta.length - 1 := by
      by_contra hcon
      push_neg at hcon
      have := (searchCount_char_getD hsort hl1).mpr hcon
      linarith
    have hj1 : searchCount theta t - 1 + 1 = searchCount theta t := by omega
    have hjlt : searchCount theta t - 1 + 1 < theta.length := by omega
    refine ⟨searchCount theta t - 1, hjlt, ?_, ?_, ?_⟩
    · exact (searchCount_char_getD hsort (by omega)).mpr (by omega)
    · by_contra hcon
      push_neg at hcon
      have := (searchCount_char_getD hsort hjlt).mp hcon
      omega
    · unfold interp_point interp_point_inc
      rw [if_pos horient, if_neg hne, if_neg (by push_neg; constructor <;> linarith),
        if_neg (by omega)]
      rw [lin_interp_eq_spec]
  · intro i hi
    have hne : theta.length ≠ 0 := by omega
    have hl1 : theta.length - 1 < theta.length := by omega
    have horient : theta.getD 0 0 ≤ theta.getD (theta.length - 1) 0 :=
      sorted_getD_le hsort (Nat.zero_le _) hl1
    have hmask1 : ¬ theta.getD i 0 < theta.getD 0 0 :=
      not_lt.mpr (sorted_getD_le hsort (Nat.zero_le _) hi)
    have hmask2 : ¬ theta.getD (theta.length - 1) 0 < theta.getD i 0 :=
      not_lt.mpr (sorted_getD_le hsort (by omega) hl1)
    have hci : searchCount theta (theta.getD i 0) = i + 1 := by
      have hlb : i < searchCount theta (theta.getD i 0) :=
        (searchCount_char_getD hsort hi).mp le_rfl
      have hub : searchCount theta (theta.getD i 0) ≤ i + 1 := by
        by_contra hcon
        push_neg at hcon
        by_cases hi1 : i + 1 < theta.length
        · have hle := (searchCount_char_getD (t := theta.getD i 0) hsort hi1).mpr (by omega)
          have hlt : theta.getD i 0 < theta.getD (i + 1) 0 := by
            rw [getD_eq_get hi, getD_eq_get hi1]
            exact (List.pairwise_iff_get.mp hsort) ⟨i, hi⟩ ⟨i + 1, hi1⟩
              (by exact Nat.lt_succ_self i)
          linarith
        · have := searchCount_le_length theta (theta.getD i 0)
          omega
      omega
    unfold interp_point interp_point_inc
    rw [if_pos horient, if_neg hne,
      if_neg (by push_neg; exact ⟨not_lt.mp hmask1, not_lt.mp hmask2⟩), hci]
    by_cases hplus : i + 1 - 1 + 1 = theta.length
    · rw [if_pos hplus]
      have : theta.length - 1 = i := by omega
      rw [this]
    · rw [if_neg hplus]
      have h1 : i + 1 - 1 = i := by omega
      rw [h1, lin_interp_at_node]

/-- C2: for every target level strictly outside the range of the reference
coordinate at a given column and time step, the vertical regridder produces
a missing value (the model of NaN), never an extrapolated number. -/
theorem c2_outside_missing (phi theta : List ℚ) (t : ℚ)
    (hsort : theta.Sorted (· < ·)) (hne : theta.length ≠ 0)
    (hout : t < theta.getD 0 0 ∨ theta.getD (theta.length - 1) 0 < t) :
    interp_point phi theta t = none := by
  have hl1 : theta.length - 1 < theta.length := by omega
  have horient : theta.getD 0 0 ≤ theta.getD (theta.length - 1) 0 :=
    sorted_getD_le hsort (Nat.zero_le _) hl1
  unfold interp_point interp_point_inc
  rw [if_pos horient, if_neg hne, if_pos hout]

theorem c1_regrid_exact_linear_witness :
    (∃ j, j + 1 < ([10, 20, 30] : List ℚ).length ∧
      ([10, 20, 30] : List ℚ).getD j 0 ≤ 25 ∧
      (25 : ℚ) < ([10, 20, 30] : List ℚ).getD (j + 1) 0 ∧
      interp_point [1, 2, 4] [10, 20, 30] 25 =
        some (spec_linear_interp (([10, 20, 30] : List ℚ).getD j 0)
          (([10, 20, 30] : List ℚ).getD (j + 1) 0)
          (([1, 2, 4] : List ℚ).getD j 0)
          (([1, 2, 4] : List ℚ).getD (j + 1) 0) 25)) ∧
    interp_point [1, 2, 4] [10, 20, 30] (([10, 20, 30] : List ℚ).getD 1 0) =
      some (([1, 2, 4] : List ℚ).getD 1 0) := by
  have h := c1_regrid_exact_linear [1, 2, 4] [10, 20, 30] (by decide) (by decide)
  exact ⟨h.1 25 (by decide) (by decide), h.2 1 (by decide)⟩

theorem c2_outside_missing_witness :
    interp_point [1, 2] [10, 20] 99 = none :=
  c2_outside_missing [1, 2] [10, 20] 99 (by decide) (by decide) (Or.inr (by decide))

/-! ## Level-expression parsing

`parse_arange_expr` in `src/preprocess.py` parses the `--levs` string with
`ast.parse(expr, mode="eval")` and accepts only a call of an `arange`
attribute whose arguments are exactly three plain numeric literals
(`ast.Num`); anything else raises `ValueError`.  The Python string parser
itself is external; the model works on the parsed expression tree.
-/

/-- Ceiling of a rational, computed with integer floor division so that it
stays kernel-reducible. -/
def rat_ceil (q : ℚ) : ℤ := -((-q.num) / (q.den : ℤ))

/-- Model of `numpy.arange(start, stop, step)` for three numeric arguments:
`ceil((stop - start) / step)` (clamped at zero) equally spaced values
starting at `start`; `numpy` raises for `step = 0` (modelled as `none`). -/
def np_arange (start stop step : ℚ) : Option (List ℚ) :=
  if step = 0 then none
  else some ((List.range (rat_ceil ((stop - start) / step)).toNat).map
    (fun i => start + i * step))

/-- Abstract syntax of the Python expression kinds `parse_arange_expr`
inspects.  A Python numeric literal (`ast.Num`) is always nonnegative: a
negative number such as `-1` parses as a unary-minus node applied to a
literal, which is a `unary` node here, not a `num` node. -/
inductive PyExpr where
  | num (q : ℚ)
  | pyname (id : String)
  | attrGet (value : PyExpr) (a : String)
  | call (func : PyExpr) (args : List PyExpr)
  | unary (arg : PyExpr)
  | otherNode

/-- The Python-lexer invariant restricted to the nodes the parser inspects:
every argument of a call that is a plain numeric literal carries a
nonnegative value. -/
def PyExpr.argLitsNonneg : PyExpr → Bool
  | .call _ args => args.all (fun a =>
      match a with
      | .num q => decide (0 ≤ q)
      | _ => true)
  | _ => true

/-- The argument-extraction loop of `parse_arange_expr`: each argument must
be a plain numeric literal (`ast.Num`), otherwise
`ValueError("Non-numeric argument")`. -/
def extract_args : List PyExpr → Except String (List ℚ)
  | [] => .ok []
  | .num q :: rest => (extract_args rest).map (fun l => q :: l)
  | _ :: _ => .error "Non-numeric argument"

/-- The body of `parse_arange_expr`, before the `except` clause: validate
that the tree is a call (`ast.Call`) of an attribute (`ast.Attribute`) named
`"arange"` with exactly three numeric-literal arguments, then evaluate
`np.arange`.  The value to the left of the attribute is not inspected. -/
def parse_arange_core (e : PyExpr) : Except String (List ℚ) :=
  match e with
  | .call (.attrGet _ a) args =>
      if a ≠ "arange" then .error "Not arange function"
      else match extract_args args with
        | .error m => .error m
        | .ok nums =>
          match nums with
          | [x, y, z] =>
            match np_arange x y z with
            | some l => .ok l
            | none => .error "division by zero"
          | _ => .error "arange needs 3 arguments"
  | .call _ _ => .error "Not np.arange call"
  | _ => .error "Not a function call"

/-- Model of `parse_arange_expr` from `src/preprocess.py`: any failure,
including the error raised by `numpy` itself for a zero step, is re-raised
as `ValueError("Invalid arange expression: ...")`. -/
def parse_arange_expr (e : PyExpr) : Except String (List ℚ) :=
  match parse_arange_core e with
  | .ok l => .ok l
  | .error m => .error ("Invalid arange expression: " ++ m)

/-- Specification-side description of a well-formed level specification: a
call of an `arange` attribute with exactly three numeric-literal arguments
and a step on which `numpy.arange` is defined (nonzero). -/
def wellFormedArange (e : PyExpr) : Option (ℚ × ℚ × ℚ) :=
  match e with
  | .call (.attrGet _ a) [.num x, .num y, .num z] =>
      if a = "arange" ∧ z ≠ 0 then some (x, y, z) else none
  | _ => none

theorem extract_args_ok_shape :
    ∀ (args : List PyExpr) (nums : List ℚ), extract_args args = .ok nums →
      args = nums.map PyExpr.num := by
  intro args
  induction args with
  | nil =>
    intro nums h
    simp only [extract_args] at h
    cases h
    rfl
  | cons a rest ih =>
    intro nums h
    cases a with
    | num q =>
      simp only [extract_args] at h
      cases hrest : extract_args rest with
      | error m => rw [hrest] at h; simp [Except.map] at h
      | ok l =>
        rw [hrest] at h
        simp only [Except.map] at h
        cases h
        simp [ih l hrest]
    | pyname id => exact absurd h (by simp [extract_args])
    | attrGet v a2 => exact absurd h (by simp [extract_args])
    | call f as2 => exact absurd h (by simp [extract_args])
    | unary a2 => exact absurd h (by simp [extract_args])
    | otherNode => exact absurd h (by simp [extract_args])

theorem parse_arange_core_ok_shape :
    ∀ (e : PyExpr) (l : List ℚ), parse_arange_core e = .ok l →
      ∃ v x y z, e = .call (.attrGet v "arange") [.num x, .num y, .num z] ∧
        z ≠ 0 ∧ np_arange x y z = some l := by
  intro e l h
  unfold parse_arange_core at h
  split at h
  case h_2 => exact absurd h (by simp)
  case h_3 => exact absurd h (by simp)
  case h_1 v a args =>
    split at h
    · exact absurd h (by simp)
    case isFalse hne =>
      rw [not_not] at hne
      subst hne
      cases hex : extract_args args with
      | error m => rw [hex] at h; exact absurd h (by simp)
      | ok nums =>
        rw [hex] at h
        have hargs := extract_args_ok_shape args nums hex
        subst hargs
        dsimp only at h
        split at h
        case h_2 => exact absurd h (by simp)
        case h_1 x y z =>
          cases hna : np_arange x y z with
          | none => rw [hna] at h; exact absurd h (by simp)
          | some l2 =>
            rw [hna] at h
            dsimp only at h
            cases h
            refine ⟨v, x, y, z, by simp, ?_, hna⟩
            intro hz
            subst hz
            simp [np_arange] at hna

instance : DecidableEq (Except String (List ℚ)) := fun a b =>
  match a, b with
  | .ok x, .ok y =>
      if h : x = y then .isTrue (by rw [h]) else .isFalse (by simp [h])
  | .error x, .error y =>
      if h : x = y then .isTrue (by rw [h]) else .isFalse (by simp [h])
  | .ok _, .error _ => .isFalse (by simp)
  | .error _, .ok _ => .isFalse (by simp)

theorem parse_arange_ok_of_wf (v : PyExpr) (x y z : ℚ) (hz : z ≠ 0) :
    ∃ l, np_arange x y z = some l ∧
      parse_arange_expr
        (.call (.attrGet v "arange") [.num x, .num y, .num z]) = .ok l := by
  refine ⟨(List.range (rat_ceil ((y - x) / z)).toNat).map (fun i => x + i * z),
    ?_, ?_⟩
  · simp [np_arange, hz]
  · simp [parse_arange_expr, parse_arange_core, extract_args, Except.map,
      np_arange, hz]

/-- C5: for every parsed level-specification expression, `parse_arange_expr`
either returns the `np.arange(start, stop, step)` sequence — exactly when
the expression is a well-formed `arange` call with three numeric-literal
arguments on which `numpy.arange` is defined — or fails with a `ValueError`
for any malformed expression, evaluating only the literal arguments and
never arbitrary code. -/
theorem c5_parse_arange_safe (e : PyExpr) :
    (∀ x y z, wellFormedArange e = some (x, y, z) →
      ∃ l, np_arange x y z = some l ∧ parse_arange_expr e = .ok l) ∧
    (wellFormedArange e = none → ∃ m, parse_arange_expr e = .error m) := by
  constructor
  · intro x y z hwf
    unfold wellFormedArange at hwf
    split at hwf
    case h_2 => exact absurd hwf (by simp)
    case h_1 v a x2 y2 z2 =>
      split at hwf
      case isFalse => exact absurd hwf (by simp)
      case isTrue hc =>
        obtain ⟨ha, hz⟩ := hc
        subst ha
        injection hwf with hwf2
        rw [Prod.mk.injEq, Prod.mk.injEq] at hwf2
        obtain ⟨rfl, rfl, rfl⟩ := hwf2
        exact parse_arange_ok_of_wf v _ _ _ hz
  · intro hnone
    cases hcore : parse_arange_core e with
    | error m =>
      exact ⟨"Invalid arange expression: " ++ m,
        by simp [parse_arange_expr, hcore]⟩
    | ok l =>
      obtain ⟨v, x, y, z, he, hz, hna⟩ := parse_arange_core_ok_shape e l hcore
      subst he
      rw [show wellFormedArange
          (.call (.attrGet v "arange") [.num x, .num y, .num z]) =
          some (x, y, z) by simp [wellFormedArange, hz]] at hnone
      exact absurd hnone (by simp)

theorem extract_args_unary :
    ∀ (pre : List PyExpr) (arg : PyExpr) (post : List PyExpr),
      extract_args (pre ++ .unary arg :: post) = .error "Non-numeric argument" := by
  intro pre arg post
  induction pre with
  | nil => simp [extract_args]
  | cons p rest ih =>
    cases p with
    | num q => simp [extract_args, ih, Except.map]
    | pyname id => simp [extract_args]
    | attrGet v a2 => simp [extract_args]
    | call f as2 => simp [extract_args]
    | unary a2 => simp [extract_args]
    | otherNode => simp [extract_args]

/-- C10: `parse_arange_expr` rejects every `arange` call containing a
unary-minus argument (a negative literal is a unary-minus node, not a plain
numeric-literal node) with a `ValueError`; consequently every accepted level
specification consists of three nonnegative numeric-literal arguments. -/
theorem c10_rejects_negative_literals :
    (∀ (v : PyExpr) (a : String) (pre post : List PyExpr) (arg : PyExpr),
      ∃ m, parse_arange_expr
        (.call (.attrGet v a) (pre ++ .unary arg :: post)) = .error m) ∧
    (∀ e l, parse_arange_expr e = .ok l → e.argLitsNonneg = true →
      ∃ v x y z, e = .call (.attrGet v "arange") [.num x, .num y, .num z] ∧
        0 ≤ x ∧ 0 ≤ y ∧ 0 ≤ z) := by
  constructor
  · intro v a pre post arg
    by_cases haa : a = "arange"
    · subst haa
      exact ⟨"Invalid arange expression: Non-numeric argument",
        by simp [parse_arange_expr, parse_arange_core, extract_args_unary]⟩
    · exact ⟨"Invalid arange expression: Not arange function",
        by simp [parse_arange_expr, parse_arange_core, haa]⟩
  · intro e l hok hnn
    cases hcore : parse_arange_core e with
    | error m => simp [parse_arange_expr, hcore] at hok
    | ok l2 =>
      obtain ⟨v, x, y, z, he, hz, hna⟩ := parse_arange_core_ok_shape e l2 hcore
      subst he
      simp only [PyExpr.argLitsNonneg, List.all_cons, List.all_nil,
        Bool.and_true, Bool.and_eq_true, decide_eq_true_eq] at hnn
      exact ⟨v, x, y, z, rfl, hnn.1, hnn.2.1, hnn.2.2⟩

theorem c5_parse_arange_safe_witness :
    ∃ l, np_arange 0 5 2 = some l ∧
      parse_arange_expr (.call (.attrGet (.pyname "np") "arange")
        [.num 0, .num 5, .num 2]) = .ok l :=
  (c5_parse_arange_safe _).1 0 5 2 (by decide)

theorem c10_rejects_negative_literals_witness :
    (∃ m, parse_arange_expr (.call (.attrGet (.pyname "np") "arange")
      ([.num 1] ++ .unary (.num 5) :: [.num 2])) = .error m) ∧
    (∃ v x y z, (PyExpr.call (.attrGet (.pyname "np") "arange")
        [.num 1, .num 5, .num 2]) =
          .call (.attrGet v "arange") [.num x, .num y, .num z] ∧
      0 ≤ x ∧ 0 ≤ y ∧ 0 ≤ z) := by
  constructor
  · exact c10_rejects_negative_literals.1 (.pyname "np") "arange"
      [.num 1] [.num 2] (.num 5)
  · obtain ⟨l, hna, hok⟩ :=
      parse_arange_ok_of_wf (.pyname "np") 1 5 2 (by decide)
    exact c10_rejects_negative_literals.2
      (.call (.attrGet (.pyname "np") "arange") [.num 1, .num 5, .num 2])
      l hok (by decide)

/-! ## Dataset model

An `xarray.Dataset` is modelled as an insertion-ordered association list
from variable names to variables, the dictionary the implementation works
with.  A variable carries its dimension identifiers, its data as a list of
columns along the native vertical axis (one inner list per time step and
horizontal position; for variables without a vertical axis the grouping is
immaterial), and whether it currently carries pint units.
-/

inductive VName where
  | U10
  | V10
  | U
  | V
  | T2
  | QVAPOR
  | air_pressure
  | air_potential_temperature
  | geopotential_height
  | wind_east
  | wind_north
  | wrf_projection
  | wind_speed_10
  | wind_speed
  | wind_direction_10
  | wind_direction
  | Ta
  | RH
  | other (n : ℕ)
deriving DecidableEq, Repr

structure Var (α : Type) where
  dims : List ℕ
  cols : List (List (Option α))
  quantified : Bool
deriving DecidableEq, Repr

abbrev Dataset (α : Type) : Type := List (VName × Var α)

/-- Dictionary lookup `ds[k]`: first entry with the given name. -/
def dsLookup {α : Type} : Dataset α → VName → Option (Var α)
  | [], _ => none
  | (a, w) :: rest, k => if a = k then some w else dsLookup rest k

/-- Dictionary assignment `ds[k] = v`: replace the value of an existing key
in place, otherwise append the new entry at the end. -/
def dsSet {α : Type} : Dataset α → VName → Var α → Dataset α
  | [], k, v => [(k, v)]
  | (a, w) :: rest, k, v =>
      if a = k then (k, v) :: rest else (a, w) :: dsSet rest k v

/-- The names of a dataset, in insertion order. -/
def dsKeys {α : Type} (ds : Dataset α) : List VName := ds.map Prod.fst

/-- Python `dict.update`: each entry of the second dictionary is assigned
into the first, in order — the merge step `v3d_dict.update(v2d_dict)` of
`_to_levs`. -/
def dictUpdate {α : Type} (d3 d2 : Dataset α) : Dataset α :=
  d2.foldl (fun acc p => dsSet acc p.1 p.2) d3

/-- `metpy` `dequantify`: move the pint units into metadata, leaving the
numeric values unchanged. -/
def dequantify {α : Type} (v : Var α) : Var α :=
  { v with quantified := false }

def seq_some : List (Option ℚ) → Option (List ℚ)
  | [] => some []
  | none :: _ => none
  | some x :: rest => (seq_some rest).map (fun l => x :: l)

/-- Regridding of one 3-D variable against the reference variable: every
column is interpolated onto the target levels; a column containing missing
values yields missing output (NaN poisoning).  The result carries no pint
units; the identity of the replaced vertical dimension is not modelled. -/
def transformVar (levs : List ℚ) (ref v : Var ℚ) : Var ℚ :=
  { dims := v.dims
    cols := List.zipWith (fun c rc =>
      match seq_some c, seq_some rc with
      | some phi, some theta => interp_column phi theta levs
      | _, _ => levs.map (fun _ => none)) v.cols ref.cols
    quantified := false }

/-- Model of `_to_levs` (`src/preprocess.py` lines 74 to 106): classify the
variables by exact dimension match against `ds["T2"].dims` (2-D) and
`ds["wind_east"].dims` (3-D); regrid the 3-D variables against the chosen
reference coordinate; dequantify and pass through the 2-D variables; merge
with `v3d_dict.update(v2d_dict)`; re-attach `wrf_projection`.  A missing
`T2`, `wind_east`, reference or `wrf_projection` variable is a `KeyError`,
modelled as `none`. -/
def to_levs (ds : Dataset ℚ) (levs : List ℚ) (lev_type : VName) :
    Option (Dataset ℚ) :=
  match dsLookup ds .T2, dsLookup ds .wind_east, dsLookup ds lev_type,
      dsLookup ds .wrf_projection with
  | some t2, some we, some ref, some proj =>
    some (dsSet
      (dictUpdate
        ((ds.filter (fun p => decide (p.2.dims = we.dims))).map
          (fun p => (p.1, transformVar levs ref p.2)))
        ((ds.filter (fun p => decide (p.2.dims = t2.dims))).map
          (fun p => (p.1, dequantify p.2))))
      .wrf_projection proj)
  | _, _, _, _ => none

/-- `to_hlevs`: regrid against geopotential height. -/
def to_hlevs (ds : Dataset ℚ) (levs : List ℚ) : Option (Dataset ℚ) :=
  to_levs ds levs .geopotential_height

/-- `to_plevs`: regrid against air pressure. -/
def to_plevs (ds : Dataset ℚ) (levs : List ℚ) : Option (Dataset ℚ) :=
  to_levs ds levs .air_pressure

theorem dsLookup_dsSet_self {α : Type} (ds : Dataset α) (k : VName) (v : Var α) :
    dsLookup (dsSet ds k v) k = some v := by
  induction ds with
  | nil => simp [dsSet, dsLookup]
  | cons p rest ih =>
    obtain ⟨a, w⟩ := p
    by_cases hak : a = k
    · simp [dsSet, hak, dsLookup]
    · simp [dsSet, hak, dsLookup, ih]

theorem dsLookup_dsSet_other {α : Type} (ds : Dataset α) (k k2 : VName)
    (v : Var α) (h : k2 ≠ k) :
    dsLookup (dsSet ds k v) k2 = dsLookup ds k2 := by
  induction ds with
  | nil => simp [dsSet, dsLookup, Ne.symm h]
  | cons p rest ih =>
    obtain ⟨a, w⟩ := p
    by_cases hak : a = k
    · subst hak
      simp [dsSet, dsLookup, Ne.symm h]
    · by_cases hak2 : a = k2
      · simp [dsSet, hak, dsLookup, hak2, h]
      · simp [dsSet, hak, dsLookup, hak2, ih]

theorem dsLookup_eq_none_iff {α : Type} (ds : Dataset α) (k : VName) :
    dsLookup ds k = none ↔ k ∉ dsKeys ds := by
  induction ds with
  | nil => simp [dsLookup, dsKeys]
  | cons p rest ih =>
    obtain ⟨a, w⟩ := p
    by_cases hak : a = k
    · simp [dsLookup, hak, dsKeys]
    · simp only [dsLookup, if_neg hak, dsKeys, List.map_cons, List.mem_cons]
      rw [ih]
      simp only [dsKeys]
      constructor
      · intro hn
        push_neg
        exact ⟨fun he => hak he.symm, hn⟩
      · intro hn
        push_neg at hn
        exact hn.2

theorem mem_dsKeys_iff_lookup {α : Type} (ds : Dataset α) (k : VName) :
    k ∈ dsKeys ds ↔ ∃ v, dsLookup ds k = some v := by
  constructor
  · intro hm
    rcases hl : dsLookup ds k with _ | v
    · rw [dsLookup_eq_none_iff] at hl
      exact absurd hm hl
    · exact ⟨v, rfl⟩
  · rintro ⟨v, hv⟩
    by_contra hcon
    rw [← dsLookup_eq_none_iff] at hcon
    rw [hcon] at hv
    cases hv

theorem dsSet_notin {α : Type} (ds : Dataset α) (k : VName) (v : Var α)
    (h : k ∉ dsKeys ds) : dsSet ds k v = ds ++ [(k, v)] := by
  induction ds with
  | nil => simp [dsSet]
  | cons p rest ih =>
    obtain ⟨a, w⟩ := p
    simp only [dsKeys, List.map_cons, List.mem_cons] at h
    push_neg at h
    have hak : ¬ a = k := fun he => h.1 he.symm
    simp only [dsSet, if_neg hak]
    rw [ih (by simpa [dsKeys] using h.2)]
    simp

theorem dsKeys_append {α : Type} (d1 d2 : Dataset α) :
    dsKeys (d1 ++ d2) = dsKeys d1 ++ dsKeys d2 := by
  simp [dsKeys]

theorem dsLookup_append_right {α : Type} (d1 d2 : Dataset α) (k : VName)
    (h : k ∉ dsKeys d1) : dsLookup (d1 ++ d2) k = dsLookup d2 k := by
  induction d1 with
  | nil => simp
  | cons p rest ih =>
    obtain ⟨a, w⟩ := p
    simp only [dsKeys, List.map_cons, List.mem_cons] at h
    push_neg at h
    have hak : ¬ a = k := fun he => h.1 he.symm
    simp only [List.cons_append, dsLookup, if_neg hak]
    exact ih (by simpa [dsKeys] using h.2)

theorem dsLookup_append_left {α : Type} (d1 d2 : Dataset α) (k : VName)
    (v : Var α) (h : dsLookup d1 k = some v) :
    dsLookup (d1 ++ d2) k = some v := by
  induction d1 with
  | nil => cases h
  | cons p rest ih =>
    obtain ⟨a, w⟩ := p
    by_cases hak : a = k
    · simp only [dsLookup, if_pos hak] at h
      simp [dsLookup, hak, h]
    · simp only [dsLookup, if_neg hak] at h
      simp [dsLookup, hak, ih h]

theorem dictUpdate_lookup_notin {α : Type} :
    ∀ (d2 d3 : Dataset α) (k : VName), k ∉ dsKeys d2 →
      dsLookup (dictUpdate d3 d2) k = dsLookup d3 k := by
  intro d2
  induction d2 with
  | nil => intro d3 k _; rfl
  | cons p rest ih =>
    intro d3 k h
    obtain ⟨a, w⟩ := p
    simp only [dsKeys, List.map_cons, List.mem_cons] at h
    push_neg at h
    have step : dictUpdate d3 ((a, w) :: rest) = dictUpdate (dsSet d3 a w) rest := rfl
    rw [step, ih (dsSet d3 a w) k (by simpa [dsKeys] using h.2),
      dsLookup_dsSet_other _ _ _ _ h.1]

theorem dictUpdate_disjoint {α : Type} :
    ∀ (d2 d3 : Dataset α), (dsKeys d2).Nodup →
      (∀ k, k ∈ dsKeys d2 → k ∉ dsKeys d3) →
      dictUpdate d3 d2 = d3 ++ d2 := by
  intro d2
  induction d2 with
  | nil => intro d3 _ _; simp [dictUpdate]
  | cons p rest ih =>
    intro d3 hnd hdis
    obtain ⟨a, w⟩ := p
    have hnd2 : (dsKeys ((a, w) :: rest)) = a :: dsKeys rest := rfl
    rw [hnd2] at hnd
    rw [List.nodup_cons] at hnd
    have step : dictUpdate d3 ((a, w) :: rest) = dictUpdate (dsSet d3 a w) rest := rfl
    rw [step, dsSet_notin d3 a w (hdis a (by simp [hnd2]))]
    rw [ih (d3 ++ [(a, w)]) hnd.2 ?_]
    · simp
    · intro k hk
      rw [dsKeys_append]
      simp only [List.mem_append]
      push_neg
      constructor
      · exact hdis k (by simp [hnd2, hk])
      · simp [dsKeys]
        intro he
        exact hnd.1 (he ▸ hk)

theorem dsLookup_filtmap_none {α : Type} (q : VName × Var α → Bool)
    (f : Var α → Var α) :
    ∀ (ds : Dataset α) (k : VName), k ∉ dsKeys ds →
      dsLookup ((ds.filter q).map (fun p => (p.1, f p.2))) k = none := by
  intro ds
  induction ds with
  | nil => intro k _; rfl
  | cons p rest ih =>
    intro k h
    obtain ⟨a, w⟩ := p
    simp only [dsKeys, List.map_cons, List.mem_cons] at h
    push_neg at h
    have hak : ¬ a = k := fun he => h.1 he.symm
    rw [List.filter_cons]
    by_cases hq : q (a, w) = true
    · simp only [hq, if_true, List.map_cons, dsLookup, if_neg hak]
      exact ih k (by simpa [dsKeys] using h.2)
    · simp only [hq]
      simp only [if_false, Bool.false_eq_true]
      exact ih k (by simpa [dsKeys] using h.2)

theorem dsLookup_filtmap {α : Type} (q : VName × Var α → Bool)
    (f : Var α → Var α) :
    ∀ (ds : Dataset α) (k : VName) (v : Var α), (dsKeys ds).Nodup →
      dsLookup ds k = some v →
      dsLookup ((ds.filter q).map (fun p => (p.1, f p.2))) k =
        if q (k, v) then some (f v) else none := by
  intro ds
  induction ds with
  | nil => intro k v _ hv; cases hv
  | cons p rest ih =>
    intro k v hnd hv
    obtain ⟨a, w⟩ := p
    have hknd : dsKeys ((a, w) :: rest) = a :: dsKeys rest := rfl
    rw [hknd, List.nodup_cons] at hnd
    by_cases hak : a = k
    · subst hak
      simp only [dsLookup, if_pos rfl] at hv
      cases hv
      rw [List.filter_cons]
      by_cases hq : q (a, v) = true
      · simp [hq, dsLookup]
      · simp only [hq]
        simp only [if_false, Bool.false_eq_true]
        rw [dsLookup_filtmap_none q f rest a hnd.1]
    · simp only [dsLookup, if_neg hak] at hv
      rw [List.filter_cons]
      by_cases hq : q (a, w) = true
      · simp only [hq, if_true, List.map_cons, dsLookup, if_neg hak]
        exact ih k v hnd.2 hv
      · simp only [hq]
        simp only [if_false, Bool.false_eq_true]
        exact ih k v hnd.2 hv

theorem dsKeys_filtmap {α : Type} (q : VName × Var α → Bool)
    (f : Var α → Var α) (ds : Dataset α) :
    dsKeys ((ds.filter q).map (fun p => (p.1, f p.2))) =
      (ds.filter q).map Prod.fst := by
  simp [dsKeys, List.map_map]

theorem dsKeys_filtmap_nodup {α : Type} (q : VName × Var α → Bool)
    (f : Var α → Var α) (ds : Dataset α) (hnd : (dsKeys ds).Nodup) :
    (dsKeys ((ds.filter q).map (fun p => (p.1, f p.2)))).Nodup := by
  rw [dsKeys_filtmap]
  exact hnd.sublist (List.Sublist.map Prod.fst (List.filter_sublist ds))

/-- C9: in the assembler's merge `v3d_dict.update(v2d_dict)`, a key present
in both dictionaries raises no error and ends up bound to the second
(2-D pass-through) dictionary's value: last write wins under Python
`dict.update` semantics. -/
theorem c9_merge_last_write_wins :
    ∀ (d2 d3 : Dataset ℚ) (k : VName) (v : Var ℚ), (dsKeys d2).Nodup →
      dsLookup d2 k = some v →
      dsLookup (dictUpdate d3 d2) k = some v := by
  intro d2
  induction d2 with
  | nil => intro d3 k v _ hv; cases hv
  | cons p rest ih =>
    intro d3 k v hnd hv
    obtain ⟨a, w⟩ := p
    have hknd : dsKeys ((a, w) :: rest) = a :: dsKeys rest := rfl
    rw [hknd, List.nodup_cons] at hnd
    have step : dictUpdate d3 ((a, w) :: rest) = dictUpdate (dsSet d3 a w) rest := rfl
    rw [step]
    by_cases hak : a = k
    · subst hak
      simp only [dsLookup, if_pos rfl] at hv
      cases hv
      rw [dictUpdate_lookup_notin rest (dsSet d3 a v) a hnd.1]
      exact dsLookup_dsSet_self d3 a v
    · simp only [dsLookup, if_neg hak] at hv
      exact ih (dsSet d3 a w) k v hnd.2 hv

theorem c9_merge_last_write_wins_witness :
    dsLookup
      (dictUpdate [(VName.T2, (⟨[0], [[some 1]], true⟩ : Var ℚ))]
        [(VName.T2, (⟨[0], [[some 2]], false⟩ : Var ℚ))])
      VName.T2 = some (⟨[0], [[some 2]], false⟩ : Var ℚ) :=
  c9_merge_last_write_wins
    [(VName.T2, (⟨[0], [[some 2]], false⟩ : Var ℚ))]
    [(VName.T2, (⟨[0], [[some 1]], true⟩ : Var ℚ))]
    VName.T2 (⟨[0], [[some 2]], false⟩ : Var ℚ) (by decide) (by decide)

theorem dsLookup_filtmap_pos {α : Type} (q : VName × Var α → Bool)
    (f : Var α → Var α) (ds : Dataset α) (k : VName) (v : Var α)
    (hnd : (dsKeys ds).Nodup) (hv : dsLookup ds k = some v)
    (hq : q (k, v) = true) :
    dsLookup ((ds.filter q).map (fun p => (p.1, f p.2))) k = some (f v) := by
  rw [dsLookup_filtmap q f ds k v hnd hv]
  simp [hq]

theorem dsLookup_filtmap_neg {α : Type} (q : VName × Var α → Bool)
    (f : Var α → Var α) (ds : Dataset α) (k : VName) (v : Var α)
    (hnd : (dsKeys ds).Nodup) (hv : dsLookup ds k = some v)
    (hq : q (k, v) = false) :
    dsLookup ((ds.filter q).map (fun p => (p.1, f p.2))) k = none := by
  rw [dsLookup_filtmap q f ds k v hnd hv]
  simp [hq]

/-- C4 (amended): under the regridder and assembler `_to_levs`, exactly the
variables whose dimensions match `ds["T2"].dims` pass through (dequantified,
data unchanged); the output variable set is the 3-D names followed by the
2-D names followed by `wrf_projection`; variables with any other dimensions
(scalars, soil-layer fields, one-dimensional coordinates) are dropped. -/
theorem c4_assembler_variable_set (ds : Dataset ℚ) (levs : List ℚ)
    (lev_type : VName) (t2 we ref proj : Var ℚ)
    (ht2 : dsLookup ds .T2 = some t2)
    (hwe : dsLookup ds .wind_east = some we)
    (href : dsLookup ds lev_type = some ref)
    (hproj : dsLookup ds .wrf_projection = some proj)
    (hnd : (dsKeys ds).Nodup)
    (hd23 : t2.dims ≠ we.dims)
    (hp2 : proj.dims ≠ t2.dims)
    (hp3 : proj.dims ≠ we.dims) :
    ∃ out, to_levs ds levs lev_type = some out ∧
      dsKeys out =
        (ds.filter (fun p => decide (p.2.dims = we.dims))).map Prod.fst ++
          (ds.filter (fun p => decide (p.2.dims = t2.dims))).map Prod.fst ++
          [VName.wrf_projection] ∧
      (∀ k v, dsLookup ds k = some v → v.dims = t2.dims →
        dsLookup out k = some (dequantify v) ∧ (dequantify v).cols = v.cols) ∧
      (∀ k v, dsLookup ds k = some v → v.dims ≠ t2.dims → v.dims ≠ we.dims →
        k ≠ VName.wrf_projection → dsLookup out k = none) := by
  set q3 : VName × Var ℚ → Bool := fun p => decide (p.2.dims = we.dims) with hq3
  set q2 : VName × Var ℚ → Bool := fun p => decide (p.2.dims = t2.dims) with hq2
  set f3 : Var ℚ → Var ℚ := fun v => transformVar levs ref v with hf3
  set d3 : Dataset ℚ := (ds.filter q3).map (fun p => (p.1, f3 p.2)) with hd3
  set d2 : Dataset ℚ := (ds.filter q2).map (fun p => (p.1, dequantify p.2)) with hd2
  have hto : to_levs ds levs lev_type =
      some (dsSet (dictUpdate d3 d2) .wrf_projection proj) := by
    unfold to_levs
    rw [ht2, hwe, href, hproj]
  have hmem3 : ∀ k, k ∈ dsKeys d3 → ∃ v, dsLookup ds k = some v ∧
      v.dims = we.dims := by
    intro k hk
    rw [mem_dsKeys_iff_lookup] at hk
    obtain ⟨w, hw⟩ := hk
    by_cases hm : k ∈ dsKeys ds
    · rw [mem_dsKeys_iff_lookup] at hm
      obtain ⟨v, hv⟩ := hm
      refine ⟨v, hv, ?_⟩
      rw [hd3, dsLookup_filtmap q3 f3 ds k v hnd hv] at hw
      by_cases hq : q3 (k, v) = true
      · rw [hq3] at hq
        exact of_decide_eq_true hq
      · rw [if_neg hq] at hw
        cases hw
    · rw [hd3, dsLookup_filtmap_none q3 f3 ds k hm] at hw
      cases hw
  have hmem2 : ∀ k, k ∈ dsKeys d2 → ∃ v, dsLookup ds k = some v ∧
      v.dims = t2.dims := by
    intro k hk
    rw [mem_dsKeys_iff_lookup] at hk
    obtain ⟨w, hw⟩ := hk
    by_cases hm : k ∈ dsKeys ds
    · rw [mem_dsKeys_iff_lookup] at hm
      obtain ⟨v, hv⟩ := hm
      refine ⟨v, hv, ?_⟩
      rw [hd2, dsLookup_filtmap q2 dequantify ds k v hnd hv] at hw
      by_cases hq : q2 (k, v) = true
      · rw [hq2] at hq
        exact of_decide_eq_true hq
      · rw [if_neg hq] at hw
        cases hw
    · rw [hd2, dsLookup_filtmap_none q2 dequantify ds k hm] at hw
      cases hw
  have hdis : ∀ k, k ∈ dsKeys d2 → k ∉ dsKeys d3 := by
    intro k hk2 hk3
    obtain ⟨v, hv, hvd⟩ := hmem2 k hk2
    obtain ⟨w, hw, hwd⟩ := hmem3 k hk3
    rw [hv] at hw
    injection hw with hw
    subst hw
    exact hd23 (hvd ▸ hwd)
  have hnd2 : (dsKeys d2).Nodup := dsKeys_filtmap_nodup q2 dequantify ds hnd
  have hmerge : dictUpdate d3 d2 = d3 ++ d2 :=
    dictUpdate_disjoint d2 d3 hnd2 hdis
  have hwnot3 : VName.wrf_projection ∉ dsKeys d3 := by
    intro hk
    obtain ⟨v, hv, hvd⟩ := hmem3 _ hk
    rw [hproj] at hv
    injection hv with hv
    subst hv
    exact hp3 hvd
  have hwnot2 : VName.wrf_projection ∉ dsKeys d2 := by
    intro hk
    obtain ⟨v, hv, hvd⟩ := hmem2 _ hk
    rw [hproj] at hv
    injection hv with hv
    subst hv
    exact hp2 hvd
  have hwnotm : VName.wrf_projection ∉ dsKeys (d3 ++ d2) := by
    rw [dsKeys_append]
    simp only [List.mem_append]
    push_neg
    exact ⟨hwnot3, hwnot2⟩
  have hout : dsSet (dictUpdate d3 d2) .wrf_projection proj =
      (d3 ++ d2) ++ [(VName.wrf_projection, proj)] := by
    rw [hmerge, dsSet_notin _ _ _ hwnotm]
  refine ⟨(d3 ++ d2) ++ [(VName.wrf_projection, proj)], by rw [hto, hout], ?_, ?_, ?_⟩
  · rw [dsKeys_append, dsKeys_append, hd3, hd2, dsKeys_filtmap, dsKeys_filtmap]
    rfl
  · intro k v hv hdim
    have hkw : k ≠ VName.wrf_projection := by
      intro he
      subst he
      rw [hproj] at hv
      injection hv with hv
      subst hv
      exact hp2 hdim
    have h3 : dsLookup d3 k = none := by
      rw [hd3]
      refine dsLookup_filtmap_neg q3 f3 ds k v hnd hv ?_
      rw [hq3]
      simp only [decide_eq_false_iff_not]
      intro hcon
      exact hd23 (hdim ▸ hcon)
    have h2 : dsLookup d2 k = some (dequantify v) := by
      rw [hd2]
      exact dsLookup_filtmap_pos q2 dequantify ds k v hnd hv
        (by rw [hq2]; exact decide_eq_true hdim)
    refine ⟨?_, rfl⟩
    rw [dsLookup_append_left]
    rw [dsLookup_append_right d3 d2 k ((dsLookup_eq_none_iff d3 k).mp h3)]
    exact h2
  · intro k v hv hdim2 hdim3 hkw
    have h3 : dsLookup d3 k = none := by
      rw [hd3]
      refine dsLookup_filtmap_neg q3 f3 ds k v hnd hv ?_
      rw [hq3]
      simp only [decide_eq_false_iff_not]
      exact hdim3
    have h2 : dsLookup d2 k = none := by
      rw [hd2]
      refine dsLookup_filtmap_neg q2 dequantify ds k v hnd hv ?_
      rw [hq2]
      simp only [decide_eq_false_iff_not]
      exact hdim2
    have hnot12 : k ∉ dsKeys (d3 ++ d2) := by
      rw [dsKeys_append]
      simp only [List.mem_append]
      push_neg
      exact ⟨(dsLookup_eq_none_iff d3 k).mp h3, (dsLookup_eq_none_iff d2 k).mp h2⟩
    rw [dsLookup_append_right (d3 ++ d2) [(VName.wrf_projection, proj)] k hnot12]
    simp only [dsLookup]
    rw [if_neg (fun he : VName.wrf_projection = k => hkw he.symm)]

/-- Example input dataset: a 2-D surface field `T2`, two 3-D fields, a
scalar `wrf_projection`, and a field `other 5` on a soil-like axis that
matches neither the 2-D nor the 3-D dimensions. -/
def exDs4 : Dataset ℚ :=
  [(.T2, ⟨[0, 1, 2], [[some 280]], true⟩),
   (.wind_east, ⟨[0, 1, 2, 3], [[some 1, some 2]], true⟩),
   (.geopotential_height, ⟨[0, 1, 2, 3], [[some 10, some 20]], true⟩),
   (.wrf_projection, ⟨[], [[some 7]], true⟩),
   (.other 5, ⟨[9], [[some 1]], false⟩)]

/-- C4 counterexample: on a dataset with a variable `other 5` whose
dimensions are neither the 2-D nor the 3-D ones, `_to_levs` silently drops
it instead of passing it through, and the output additionally contains
`wrf_projection`; hence the output variable set is not the union of the 2-D
and the 3-D names, and not every variable that does not vary along the
vertical axis passes through. -/
theorem c4_counterexample :
    (to_levs exDs4 [15] .geopotential_height).map dsKeys =
      some [VName.wind_east, VName.geopotential_height, VName.T2,
        VName.wrf_projection] ∧
    dsKeys exDs4 = [VName.T2, VName.wind_east, VName.geopotential_height,
      VName.wrf_projection, VName.other 5] ∧
    (to_levs exDs4 [15] .geopotential_height).map
      (fun out => dsLookup out (.other 5)) = some none := by
  refine ⟨?_, ?_, ?_⟩ <;> decide

theorem c4_assembler_variable_set_witness :
    ∃ out, to_levs exDs4 [15] .geopotential_height = some out ∧
      dsKeys out =
        (exDs4.filter (fun p => decide (p.2.dims = [0, 1, 2, 3]))).map
          Prod.fst ++
          (exDs4.filter (fun p => decide (p.2.dims = [0, 1, 2]))).map
            Prod.fst ++
          [VName.wrf_projection] ∧
      (∀ k v, dsLookup exDs4 k = some v → v.dims = [0, 1, 2] →
        dsLookup out k = some (dequantify v) ∧ (dequantify v).cols = v.cols) ∧
      (∀ k v, dsLookup exDs4 k = some v → v.dims ≠ [0, 1, 2] →
        v.dims ≠ [0, 1, 2, 3] → k ≠ VName.wrf_projection →
        dsLookup out k = none) :=
  c4_assembler_variable_set exDs4 [15] .geopotential_height
    ⟨[0, 1, 2], [[some 280]], true⟩ ⟨[0, 1, 2, 3], [[some 1, some 2]], true⟩
    ⟨[0, 1, 2, 3], [[some 10, some 20]], true⟩ ⟨[], [[some 7]], true⟩
    (by decide) (by decide) (by decide) (by decide) (by decide)
    (by decide) (by decide) (by decide)

/-! ## Derived variables

`compute_additional_variables_inplace` (`src/preprocess.py` lines 117 to
154) delegates the physics to `metpy.calc`; the scalar kernels are modelled
over the reals, with the fields computed pointwise and dequantified.
-/

/-- Degrees form of `numpy.arctan2 y x`: the angle of the point `(x, y)`,
in `(-180, 180]` (and `0` at the origin). -/
noncomputable def atan2deg (y x : ℝ) : ℝ :=
  Complex.arg ⟨x, y⟩ * 180 / Real.pi

/-- Model of `metpy.calc.wind_direction(u, v)` (convention `"from"`):
`90° - atan2(-v, -u)`, shifted by `+360°` when nonpositive, and `0` for
calm winds.  The result lies in `[0°, 360°]`, with `360` for a north wind
and `0` for calm. -/
noncomputable def wind_direction (u v : ℝ) : ℝ :=
  if u = 0 ∧ v = 0 then 0
  else if 90 - atan2deg (-v) (-u) ≤ 0 then 90 - atan2deg (-v) (-u) + 360
  else 90 - atan2deg (-v) (-u)

/-- The normalization applied by `compute_additional_variables_inplace`:
`wdir.where(wdir >= 0, wdir + Quantity(360, "deg"))`. -/
noncomputable def wind_direction_out (u v : ℝ) : ℝ :=
  if 0 ≤ wind_direction u v then wind_direction u v
  else wind_direction u v + 360

theorem atan2deg_le_180 (y x : ℝ) : atan2deg y x ≤ 180 := by
  unfold atan2deg
  have h := Complex.arg_le_pi (⟨x, y⟩ : ℂ)
  have hpi : 0 < Real.pi := Real.pi_pos
  rw [div_le_iff₀ hpi]
  nlinarith

theorem neg_180_lt_atan2deg (y x : ℝ) : -180 < atan2deg y x := by
  unfold atan2deg
  have h := Complex.neg_pi_lt_arg (⟨x, y⟩ : ℂ)
  have hpi : 0 < Real.pi := Real.pi_pos
  rw [lt_div_iff₀ hpi]
  nlinarith

theorem wind_direction_mem_Icc (u v : ℝ) :
    0 ≤ wind_direction u v ∧ wind_direction u v ≤ 360 := by
  unfold wind_direction
  by_cases hc : u = 0 ∧ v = 0
  · rw [if_pos hc]
    norm_num
  · rw [if_neg hc]
    have h1 := atan2deg_le_180 (-v) (-u)
    have h2 := neg_180_lt_atan2deg (-v) (-u)
    by_cases hb : 90 - atan2deg (-v) (-u) ≤ 0
    · rw [if_pos hb]
      constructor <;> linarith
    · rw [if_neg hb]
      push_neg at hb
      constructor <;> linarith

/-- C3 (amended): the wind-direction values produced by the
derived-variable calculator lie in the closed range `[0°, 360°]`; the
`where`-shift never fires because the metpy output is already nonnegative,
and `360` is attained for a north wind. -/
theorem c3_wind_direction_range (u v : ℝ) :
    0 ≤ wind_direction_out u v ∧ wind_direction_out u v ≤ 360 := by
  have h := wind_direction_mem_Icc u v
  unfold wind_direction_out
  rw [if_pos h.1]
  exact h

theorem atan2deg_one_zero : atan2deg 1 0 = 90 := by
  unfold atan2deg
  have hI : (⟨0, 1⟩ : ℂ) = Complex.I := rfl
  rw [hI, Complex.arg_I]
  have hpi : Real.pi ≠ 0 := Real.pi_ne_zero
  field_simp
  ring

/-- C3 counterexample: a pure north wind (`u = 0`, `v = -1`) yields a wind
direction of exactly `360°`, which is not in `[0°, 360°)`. -/
theorem c3_counterexample :
    wind_direction_out 0 (-1) = 360 ∧ ¬ wind_direction_out 0 (-1) < 360 := by
  have hwd : wind_direction 0 (-1) = 360 := by
    unfold wind_direction
    rw [if_neg (by norm_num)]
    have : atan2deg (-(-1 : ℝ)) (-(0 : ℝ)) = 90 := by
      norm_num
      exact atan2deg_one_zero
    rw [this]
    norm_num
  have hout : wind_direction_out 0 (-1) = 360 := by
    unfold wind_direction_out
    rw [hwd]
    norm_num
  exact ⟨hout, by rw [hout]; norm_num⟩

/-- `metpy.calc.wind_speed`: Euclidean norm of the two wind components. -/
noncomputable def wind_speed (u v : ℝ) : ℝ := Real.sqrt (u ^ 2 + v ^ 2)

/-- `metpy.calc.temperature_from_potential_temperature`: the potential
temperature multiplied by the Exner function `(p / p₀) ^ (Rd / Cp)`, with
metpy's nominal constants and reference pressure 1000 hPa in pascals. -/
noncomputable def temperature_from_potential_temperature (p theta : ℝ) : ℝ :=
  theta * Real.rpow (p / 100000) (287.04749097718457 / 1004.6662184201462)

/-- `metpy.calc.saturation_vapor_pressure` (Bolton formula), pascals. -/
noncomputable def saturation_vapor_pressure (temperature : ℝ) : ℝ :=
  611.2 * Real.exp (17.67 * (temperature - 273.15) / (temperature - 29.65))

/-- `metpy.calc.relative_humidity_from_specific_humidity`: the mixing ratio
obtained from the specific humidity, divided by the saturation mixing
ratio at the given pressure and temperature. -/
noncomputable def relative_humidity_from_specific_humidity
    (p temperature q : ℝ) : ℝ :=
  (q / (1 - q)) /
    (0.622 * saturation_vapor_pressure temperature /
      (p - saturation_vapor_pressure temperature))

/-- Pointwise application of a binary kernel, with NaN propagation. -/
noncomputable def map2opt (f : ℝ → ℝ → ℝ) :
    Option ℝ → Option ℝ → Option ℝ
  | some a, some b => some (f a b)
  | _, _ => none

/-- Pointwise application of a ternary kernel, with NaN propagation. -/
noncomputable def map3opt (f : ℝ → ℝ → ℝ → ℝ) :
    Option ℝ → Option ℝ → Option ℝ → Option ℝ
  | some a, some b, some c => some (f a b c)
  | _, _, _ => none

/-- A binary metpy computation on two variables: pointwise on the data,
dequantified on the way out. -/
noncomputable def varMap2 (f : ℝ → ℝ → ℝ) (u v : Var ℝ) : Var ℝ :=
  { dims := u.dims
    cols := List.zipWith (List.zipWith (map2opt f)) u.cols v.cols
    quantified := false }

/-- A ternary metpy computation on three variables. -/
noncomputable def varMap3 (f : ℝ → ℝ → ℝ → ℝ) (u v w : Var ℝ) : Var ℝ :=
  { dims := u.dims
    cols := List.zipWith3 (List.zipWith3 (map3opt f)) u.cols v.cols w.cols
    quantified := false }

/-- Model of `compute_additional_variables_inplace` (`src/preprocess.py`
lines 117 to 154): six dictionary assignments computed pointwise by the
metpy kernels from the present fields; `RH` reads the just-assigned `Ta`.
A missing required field is a `KeyError`, modelled as `none`. -/
noncomputable def compute_additional_variables_inplace (ds : Dataset ℝ) :
    Option (Dataset ℝ) :=
  match dsLookup ds .U10, dsLookup ds .V10, dsLookup ds .U, dsLookup ds .V,
      dsLookup ds .air_pressure, dsLookup ds .air_potential_temperature,
      dsLookup ds .QVAPOR with
  | some u10, some v10, some u, some v, some press, some theta, some qv =>
    let ds1 := dsSet ds .wind_speed_10 (varMap2 wind_speed u10 v10)
    let ds2 := dsSet ds1 .wind_speed (varMap2 wind_speed u v)
    let ds3 := dsSet ds2 .wind_direction_10
      (varMap2 wind_direction_out u10 v10)
    let ds4 := dsSet ds3 .wind_direction (varMap2 wind_direction_out u v)
    let ds5 := dsSet ds4 .Ta
      (varMap2 temperature_from_potential_temperature press theta)
    match dsLookup ds5 .Ta with
    | some ta =>
      some (dsSet ds5 .RH
        (varMap3 relative_humidity_from_specific_humidity press ta qv))
    | none => none
  | _, _, _, _, _, _, _ => none

theorem dsKeys_dsSet_fresh {α : Type} (ds : Dataset α) (k : VName)
    (v : Var α) (h : k ∉ dsKeys ds) :
    dsKeys (dsSet ds k v) = dsKeys ds ++ [k] := by
  rw [dsSet_notin ds k v h, dsKeys_append]
  rfl

/-- C6 (amended): on a dataset containing the required primary fields and
none of the six derived names, the derived-variable calculator mutates the
dataset in place by appending exactly the six derived fields, removing no
field and leaving every pre-existing field's value unchanged. -/
theorem c6_compute_inplace_frame (ds : Dataset ℝ)
    (u10 v10 u v press theta qv : Var ℝ)
    (h1 : dsLookup ds .U10 = some u10) (h2 : dsLookup ds .V10 = some v10)
    (h3 : dsLookup ds .U = some u) (h4 : dsLookup ds .V = some v)
    (h5 : dsLookup ds .air_pressure = some press)
    (h6 : dsLookup ds .air_potential_temperature = some theta)
    (h7 : dsLookup ds .QVAPOR = some qv)
    (habs : ∀ k, k ∈ [VName.wind_speed_10, VName.wind_speed,
      VName.wind_direction_10, VName.wind_direction, VName.Ta, VName.RH] →
      k ∉ dsKeys ds) :
    ∃ out, compute_additional_variables_inplace ds = some out ∧
      dsKeys out = dsKeys ds ++ [VName.wind_speed_10, VName.wind_speed,
        VName.wind_direction_10, VName.wind_direction, VName.Ta, VName.RH] ∧
      (∀ k w, dsLookup ds k = some w → dsLookup out k = some w) := by
  have n1 : VName.wind_speed_10 ∉ dsKeys ds := habs _ (by simp)
  have n2 : VName.wind_speed ∉ dsKeys ds := habs _ (by simp)
  have n3 : VName.wind_direction_10 ∉ dsKeys ds := habs _ (by simp)
  have n4 : VName.wind_direction ∉ dsKeys ds := habs _ (by simp)
  have n5 : VName.Ta ∉ dsKeys ds := habs _ (by simp)
  have n6 : VName.RH ∉ dsKeys ds := habs _ (by simp)
  refine ⟨dsSet (dsSet (dsSet (dsSet (dsSet (dsSet ds
      .wind_speed_10 (varMap2 wind_speed u10 v10))
      .wind_speed (varMap2 wind_speed u v))
      .wind_direction_10 (varMap2 wind_direction_out u10 v10))
      .wind_direction (varMap2 wind_direction_out u v))
      .Ta (varMap2 temperature_from_potential_temperature press theta))
      .RH (varMap3 relative_humidity_from_specific_humidity press
        (varMap2 temperature_from_potential_temperature press theta) qv),
    ?_, ?_, ?_⟩
  · unfold compute_additional_variables_inplace
    rw [h1, h2, h3, h4, h5, h6, h7]
    dsimp only
    rw [dsLookup_dsSet_self]
  · have k1 := dsKeys_dsSet_fresh ds VName.wind_speed_10
      (varMap2 wind_speed u10 v10) n1
    have m2 : VName.wind_speed ∉
        dsKeys (dsSet ds .wind_speed_10 (varMap2 wind_speed u10 v10)) := by
      rw [k1]
      simp only [List.mem_append, List.mem_singleton]
      push_neg
      exact ⟨n2, by decide⟩
    have k2 := dsKeys_dsSet_fresh _ VName.wind_speed
      (varMap2 wind_speed u v) m2
    rw [k1] at k2
    have m3 : VName.wind_direction_10 ∉
        dsKeys (dsSet (dsSet ds .wind_speed_10 (varMap2 wind_speed u10 v10))
          .wind_speed (varMap2 wind_speed u v)) := by
      rw [k2]
      simp only [List.mem_append, List.mem_singleton]
      push_neg
      exact ⟨⟨n3, by decide⟩, by decide⟩
    have k3 := dsKeys_dsSet_fresh _ VName.wind_direction_10
      (varMap2 wind_direction_out u10 v10) m3
    rw [k2] at k3
    have m4 : VName.wind_direction ∉
        dsKeys (dsSet (dsSet (dsSet ds
          .wind_speed_10 (varMap2 wind_speed u10 v10))
          .wind_speed (varMap2 wind_speed u v))
          .wind_direction_10 (varMap2 wind_direction_out u10 v10)) := by
      rw [k3]
      simp only [List.mem_append, List.mem_singleton]
      push_neg
      exact ⟨⟨⟨n4, by decide⟩, by decide⟩, by decide⟩
    have k4 := dsKeys_dsSet_fresh _ VName.wind_direction
      (varMap2 wind_direction_out u v) m4
    rw [k3] at k4
    have m5 : VName.Ta ∉
        dsKeys (dsSet (dsSet (dsSet (dsSet ds
          .wind_speed_10 (varMap2 wind_speed u10 v10))
          .wind_speed (varMap2 wind_speed u v))
          .wind_direction_10 (varMap2 wind_direction_out u10 v10))
          .wind_direction (varMap2 wind_direction_out u v)) := by
      rw [k4]
      simp only [List.mem_append, List.mem_singleton]
      push_neg
      exact ⟨⟨⟨⟨n5, by decide⟩, by decide⟩, by decide⟩, by decide⟩
    have k5 := dsKeys_dsSet_fresh _ VName.Ta
      (varMap2 temperature_from_potential_temperature press theta) m5
    rw [k4] at k5
    have m6 : VName.RH ∉
        dsKeys (dsSet (dsSet (dsSet (dsSet (dsSet ds
          .wind_speed_10 (varMap2 wind_speed u10 v10))
          .wind_speed (varMap2 wind_speed u v))
          .wind_direction_10 (varMap2 wind_direction_out u10 v10))
          .wind_direction (varMap2 wind_direction_out u v))
          .Ta (varMap2 temperature_from_potential_temperature press theta)) := by
      rw [k5]
      simp only [List.mem_append, List.mem_singleton]
      push_neg
      exact ⟨⟨⟨⟨⟨n6, by decide⟩, by decide⟩, by decide⟩, by decide⟩, by decide⟩
    have k6 := dsKeys_dsSet_fresh _ VName.RH
      (varMap3 relative_humidity_from_specific_humidity press
        (varMap2 temperature_from_potential_temperature press theta) qv) m6
    rw [k5] at k6
    rw [k6]
    simp [List.append_assoc]
  · intro k w hw
    have hkin : k ∈ dsKeys ds := (mem_dsKeys_iff_lookup ds k).mpr ⟨w, hw⟩
    have d1 : k ≠ VName.wind_speed_10 := fun he => n1 (he ▸ hkin)
    have d2 : k ≠ VName.wind_speed := fun he => n2 (he ▸ hkin)
    have d3 : k ≠ VName.wind_direction_10 := fun he => n3 (he ▸ hkin)
    have d4 : k ≠ VName.wind_direction := fun he => n4 (he ▸ hkin)
    have d5 : k ≠ VName.Ta := fun he => n5 (he ▸ hkin)
    have d6 : k ≠ VName.RH := fun he => n6 (he ▸ hkin)
    rw [dsLookup_dsSet_other _ _ _ _ d6, dsLookup_dsSet_other _ _ _ _ d5,
      dsLookup_dsSet_other _ _ _ _ d4, dsLookup_dsSet_other _ _ _ _ d3,
      dsLookup_dsSet_other _ _ _ _ d2, dsLookup_dsSet_other _ _ _ _ d1]
    exact hw

/-- Example input for the derived-variable calculator: the seven required
primary fields, plus a pre-existing field named `wind_speed_10` on an
unrelated axis. -/
noncomputable def exDs6 : Dataset ℝ :=
  [(.U10, ⟨[0], [[some 3]], true⟩), (.V10, ⟨[0], [[some 4]], true⟩),
   (.U, ⟨[1], [[some 3]], true⟩), (.V, ⟨[1], [[some 4]], true⟩),
   (.air_pressure, ⟨[1], [[some 100000]], true⟩),
   (.air_potential_temperature, ⟨[1], [[some 300]], true⟩),
   (.QVAPOR, ⟨[1], [[some 1]], true⟩),
   (.wind_speed_10, ⟨[9], [[some 999]], true⟩)]

/-- C6 counterexample: on an input dataset that already contains a field
named `wind_speed_10` (dimension `9`), the calculator overwrites it with
the newly computed wind speed (dimension `0`, from `U10`): a pre-existing
field's value is changed, not left unchanged. -/
theorem c6_counterexample :
    ((compute_additional_variables_inplace exDs6).bind
      (fun out => dsLookup out .wind_speed_10)).map Var.dims = some [0] ∧
    (dsLookup exDs6 .wind_speed_10).map Var.dims = some [9] := by
  constructor
  · rfl
  · rfl

/-- Example input for the derived-variable calculator without any of the
derived names. -/
noncomputable def exDs6b : Dataset ℝ :=
  [(.U10, ⟨[0], [[some 3]], true⟩), (.V10, ⟨[0], [[some 4]], true⟩),
   (.U, ⟨[1], [[some 3]], true⟩), (.V, ⟨[1], [[some 4]], true⟩),
   (.air_pressure, ⟨[1], [[some 100000]], true⟩),
   (.air_potential_temperature, ⟨[1], [[some 300]], true⟩),
   (.QVAPOR, ⟨[1], [[some 1]], true⟩)]

theorem c6_compute_inplace_frame_witness :
    ∃ out, compute_additional_variables_inplace exDs6b = some out ∧
      dsKeys out = dsKeys exDs6b ++ [VName.wind_speed_10, VName.wind_speed,
        VName.wind_direction_10, VName.wind_direction, VName.Ta, VName.RH] ∧
      (∀ k w, dsLookup exDs6b k = some w → dsLookup out k = some w) :=
  c6_compute_inplace_frame exDs6b
    ⟨[0], [[some 3]], true⟩ ⟨[0], [[some 4]], true⟩
    ⟨[1], [[some 3]], true⟩ ⟨[1], [[some 4]], true⟩
    ⟨[1], [[some 100000]], true⟩ ⟨[1], [[some 300]], true⟩
    ⟨[1], [[some 1]], true⟩
    rfl rfl rfl rfl rfl rfl rfl (by decide)

/-! ## Raw loader

`read_wrfout` (`src/preprocess.py` lines 63 to 71) opens the given files
with `xr.open_mfdataset(paths, combine="nested", concat_dim="Time")`, which
concatenates the files' time slices in the given order, applies the xwrf
`postprocess` and `destagger` steps, and finally sorts by ascending time
with `sortby("Time")` (a stable sort).
-/

/-- The staggered dimension identifier and its cell-centered replacement
(xwrf renames the `*_stag` dimension when destaggering). -/
def stagDim : ℕ := 99

/-- The cell-centered dimension that replaces `stagDim`. -/
def centerDim : ℕ := 3

/-- xwrf `destagger` on one column: adjacent averages of the edge-centered
values, one fewer point. -/
def destagger_col (c : List (Option ℚ)) : List (Option ℚ) :=
  List.zipWith (fun a b =>
    match a, b with
    | some x, some y => some ((x + y) / 2)
    | _, _ => none) c c.tail

/-- xwrf `destagger` on one variable: a variable on the staggered dimension
is averaged to cell centers and the dimension renamed; others unchanged. -/
def destagger_var (v : Var ℚ) : Var ℚ :=
  if v.dims.contains stagDim then
    { dims := v.dims.map (fun d => if d = stagDim then centerDim else d)
      cols := v.cols.map destagger_col
      quantified := v.quantified }
  else v

/-- One simulation-time slice: a timestamp and its frame of variables. -/
structure Slice where
  time : ℚ
  frame : Dataset ℚ
deriving DecidableEq, Repr

/-- Destaggering applied to every variable of a slice. -/
def destagger_slice (s : Slice) : Slice :=
  ⟨s.time, s.frame.map (fun p => (p.1, destagger_var p.2))⟩

/-- The `sortby("Time")` comparison. -/
def sliceLE (a b : Slice) : Bool := decide (a.time ≤ b.time)

/-- Model of `read_wrfout`: concatenate the files' slices in the given
order, destagger every variable, and sort by ascending time. -/
def read_wrfout (files : List (List Slice)) : List Slice :=
  ((files.flatten).map destagger_slice).mergeSort sliceLE

theorem sliceLE_trans (a b c : Slice) (hab : sliceLE a b = true)
    (hbc : sliceLE b c = true) : sliceLE a c = true := by
  unfold sliceLE at *
  exact decide_eq_true (le_trans (of_decide_eq_true hab) (of_decide_eq_true hbc))

theorem sliceLE_total (a b : Slice) : (sliceLE a b || sliceLE b a) = true := by
  unfold sliceLE
  rcases le_total a.time b.time with h | h <;> simp [h]

/-- C7: `read_wrfout` produces the single dataset obtained by concatenating
the input files along the time axis with every staggered variable converted
to cell centers, sorted by ascending time; when the time stamps are
distinct the result is the same for any order of the input files. -/
theorem c7_read_wrfout_sorted_concat (files files2 : List (List Slice))
    (hperm : files.Perm files2)
    (hnodup : ((files.flatten).map (fun s => s.time)).Nodup) :
    (read_wrfout files).Perm ((files.flatten).map destagger_slice) ∧
    List.Sorted (fun a b => a.time ≤ b.time) (read_wrfout files) ∧
    read_wrfout files2 = read_wrfout files := by
  have hsorted : ∀ (l : List Slice),
      List.Sorted (fun a b => a.time ≤ b.time) (l.mergeSort sliceLE) := by
    intro l
    have h := List.sorted_mergeSort sliceLE_trans sliceLE_total l
    exact h.imp (fun hab => of_decide_eq_true hab)
  have hstrict : ∀ (l : List Slice), (l.map (fun s => s.time)).Nodup →
      List.Sorted (fun a b => a.time ≤ b.time) l →
      List.Pairwise (fun a b : Slice => a.time < b.time) l := by
    intro l hnd hs
    have hne : List.Pairwise (fun a b : Slice => a.time ≠ b.time) l :=
      List.pairwise_map.mp hnd
    exact (hs.and hne).imp (fun h => lt_of_le_of_ne h.1 h.2)
  refine ⟨List.mergeSort_perm _ _, hsorted _, ?_⟩
  have hpermflat : (files2.flatten).Perm (files.flatten) :=
    (hperm.symm).flatten
  have hpermmap : ((files2.flatten).map destagger_slice).Perm
      ((files.flatten).map destagger_slice) := hpermflat.map _
  have hp : (read_wrfout files2).Perm (read_wrfout files) := by
    unfold read_wrfout
    exact ((List.mergeSort_perm _ _).trans hpermmap).trans
      (List.mergeSort_perm _ _).symm
  have htimes : ((read_wrfout files).map (fun s => s.time)).Nodup := by
    have hpt : ((read_wrfout files).map (fun s => s.time)).Perm
        (((files.flatten).map destagger_slice).map (fun s => s.time)) :=
      (List.mergeSort_perm _ _).map _
    have : (((files.flatten).map destagger_slice).map
        (fun s => s.time)) = (files.flatten).map (fun s => s.time) := by
      rw [List.map_map]
      rfl
    rw [this] at hpt
    exact hpt.nodup_iff.mpr hnodup
  have htimes2 : ((read_wrfout files2).map (fun s => s.time)).Nodup := by
    have := (hp.map (fun s => s.time)).nodup_iff.mpr htimes
    exact this
  haveI : IsAntisymm Slice (fun a b => a.time < b.time) :=
    ⟨fun a b h1 h2 => absurd (lt_trans h1 h2) (lt_irrefl _)⟩
  exact List.eq_of_perm_of_sorted hp
    (hstrict _ htimes2 (hsorted _)) (hstrict _ htimes (hsorted _))

/-- Two example wrfout files, each with one time slice (one containing a
staggered variable), listed out of time order. -/
def exFilesA : List (List Slice) :=
  [[⟨2, [(.U, ⟨[99], [[some 1, some 3]], false⟩)]⟩],
   [⟨1, [(.T2, ⟨[0], [[some 5]], false⟩)]⟩]]

/-- The same two files in the opposite order. -/
def exFilesB : List (List Slice) :=
  [[⟨1, [(.T2, ⟨[0], [[some 5]], false⟩)]⟩],
   [⟨2, [(.U, ⟨[99], [[some 1, some 3]], false⟩)]⟩]]

theorem c7_read_wrfout_sorted_concat_witness :
    (read_wrfout exFilesA).Perm ((exFilesA.flatten).map destagger_slice) ∧
    List.Sorted (fun a b => a.time ≤ b.time) (read_wrfout exFilesA) ∧
    read_wrfout exFilesB = read_wrfout exFilesA :=
  c7_read_wrfout_sorted_concat exFilesA exFilesB
    (List.Perm.swap _ _ _) (by decide)

/-! ## Provenance attributes and CRS serialization

The tail of `main` (`src/preprocess.py` lines 234 to 248): the
`wrf_projection` value, a `pyproj.CRS`, is replaced by its
`to_proj4()` string, and the dataset attributes (carried over from the
input by `_to_levs` line 104) are updated with the six
`PREPROCESS_*` provenance entries.
-/

/-- A pyproj CRS descriptor, represented by its proj4 serialization. -/
structure CRS where
  proj4 : String
deriving DecidableEq, Repr

/-- The value held by the `wrf_projection` variable of the processed
dataset: the raw CRS object before `main` replaces it, a projection string
afterwards. -/
inductive ProjVal where
  | crsObj (c : CRS)
  | projStr (s : String)
deriving DecidableEq, Repr

/-- Dataset-level attributes: an insertion-ordered string dictionary. -/
abbrev Attrs : Type := List (String × String)

/-- Attribute dictionary lookup. -/
def alookup : Attrs → String → Option String
  | [], _ => none
  | (a, w) :: rest, k => if a = k then some w else alookup rest k

/-- Attribute dictionary assignment (replace in place or append). -/
def aset : Attrs → String → String → Attrs
  | [], k, v => [(k, v)]
  | (a, w) :: rest, k, v =>
      if a = k then (k, v) :: rest else (a, w) :: aset rest k v

/-- The attribute keys, in insertion order. -/
def akeys (l : Attrs) : List String := l.map Prod.fst

/-- Python `dict.update` on attribute dictionaries
(`ds_p.attrs.update(dict(...))`). -/
def aupdate (d1 d2 : Attrs) : Attrs :=
  d2.foldl (fun acc p => aset acc p.1 p.2) d1

/-- The parsed command-line arguments of `main` that feed the provenance
attributes (`file_pref` models `args.file_prefix`). -/
structure Args where
  wrf_run : String
  case_name : String
  file_pref : String
  levs : String
  interp_var : String
deriving DecidableEq, Repr

/-- The six processing-provenance entries `main` adds. -/
def provenanceAttrs (args : Args) (now : String) : Attrs :=
  [("PREPROCESS_WRFRUN", args.wrf_run),
   ("PREPROCESS_CASE_NAME", args.case_name),
   ("PREPROCESS_FILE_PREFIX", args.file_pref),
   ("PREPROCESS_LEVS", args.levs),
   ("PREPROCESS_INTERP_VAR", args.interp_var),
   ("PREPROCESS_TIMESTAMP", now)]

/-- Model of the finalization step of `main`: serialize the CRS held by
`wrf_projection` to its proj4 string (an `AttributeError` if the value is
not a CRS object, modelled as `none`) and update the attributes with the
six provenance entries. -/
def mainFinalize (attrs : Attrs) (proj : ProjVal) (args : Args)
    (now : String) : Option (Attrs × ProjVal) :=
  match proj with
  | .crsObj c => some (aupdate attrs (provenanceAttrs args now),
      .projStr c.proj4)
  | .projStr _ => none

theorem alookup_aset_self (l : Attrs) (k v : String) :
    alookup (aset l k v) k = some v := by
  induction l with
  | nil => simp [aset, alookup]
  | cons p rest ih =>
    obtain ⟨a, w⟩ := p
    by_cases hak : a = k
    · simp [aset, hak, alookup]
    · simp [aset, hak, alookup, ih]

theorem alookup_aset_other (l : Attrs) (k k2 v : String) (h : k2 ≠ k) :
    alookup (aset l k v) k2 = alookup l k2 := by
  induction l with
  | nil => simp [aset, alookup, Ne.symm h]
  | cons p rest ih =>
    obtain ⟨a, w⟩ := p
    by_cases hak : a = k
    · subst hak
      simp [aset, alookup, Ne.symm h]
    · by_cases hak2 : a = k2
      · simp [aset, hak, alookup, hak2, h]
      · simp [aset, hak, alookup, hak2, ih]

theorem alookup_eq_none_iff (l : Attrs) (k : String) :
    alookup l k = none ↔ k ∉ akeys l := by
  induction l with
  | nil => simp [alookup, akeys]
  | cons p rest ih =>
    obtain ⟨a, w⟩ := p
    by_cases hak : a = k
    · simp [alookup, hak, akeys]
    · simp only [alookup, if_neg hak, akeys, List.map_cons, List.mem_cons]
      rw [ih]
      simp only [akeys]
      constructor
      · intro hn
        push_neg
        exact ⟨fun he => hak he.symm, hn⟩
      · intro hn
        push_neg at hn
        exact hn.2

theorem mem_akeys_iff_lookup (l : Attrs) (k : String) :
    k ∈ akeys l ↔ ∃ v, alookup l k = some v := by
  constructor
  · intro hm
    rcases hl : alookup l k with _ | v
    · rw [alookup_eq_none_iff] at hl
      exact absurd hm hl
    · exact ⟨v, rfl⟩
  · rintro ⟨v, hv⟩
    by_contra hcon
    rw [← alookup_eq_none_iff] at hcon
    rw [hcon] at hv
    cases hv

theorem aset_notin (l : Attrs) (k v : String) (h : k ∉ akeys l) :
    aset l k v = l ++ [(k, v)] := by
  induction l with
  | nil => simp [aset]
  | cons p rest ih =>
    obtain ⟨a, w⟩ := p
    simp only [akeys, List.map_cons, List.mem_cons] at h
    push_neg at h
    have hak : ¬ a = k := fun he => h.1 he.symm
    simp only [aset, if_neg hak]
    rw [ih (by simpa [akeys] using h.2)]
    simp

theorem akeys_append (d1 d2 : Attrs) :
    akeys (d1 ++ d2) = akeys d1 ++ akeys d2 := by
  simp [akeys]

theorem alookup_append_right (d1 d2 : Attrs) (k : String)
    (h : k ∉ akeys d1) : alookup (d1 ++ d2) k = alookup d2 k := by
  induction d1 with
  | nil => simp
  | cons p rest ih =>
    obtain ⟨a, w⟩ := p
    simp only [akeys, List.map_cons, List.mem_cons] at h
    push_neg at h
    have hak : ¬ a = k := fun he => h.1 he.symm
    simp only [List.cons_append, alookup, if_neg hak]
    exact ih (by simpa [akeys] using h.2)

theorem alookup_append_left (d1 d2 : Attrs) (k v : String)
    (h : alookup d1 k = some v) : alookup (d1 ++ d2) k = some v := by
  induction d1 with
  | nil => cases h
  | cons p rest ih =>
    obtain ⟨a, w⟩ := p
    by_cases hak : a = k
    · simp only [alookup, if_pos hak] at h
      simp [alookup, hak, h]
    · simp only [alookup, if_neg hak] at h
      simp [alookup, hak, ih h]

theorem aupdate_disjoint :
    ∀ (d2 d1 : Attrs), (akeys d2).Nodup →
      (∀ k, k ∈ akeys d2 → k ∉ akeys d1) →
      aupdate d1 d2 = d1 ++ d2 := by
  intro d2
  induction d2 with
  | nil => intro d1 _ _; simp [aupdate]
  | cons p rest ih =>
    intro d1 hnd hdis
    obtain ⟨a, w⟩ := p
    have hknd : akeys ((a, w) :: rest) = a :: akeys rest := rfl
    rw [hknd, List.nodup_cons] at hnd
    have step : aupdate d1 ((a, w) :: rest) = aupdate (aset d1 a w) rest := rfl
    rw [step, aset_notin d1 a w (hdis a (by simp [hknd]))]
    rw [ih (d1 ++ [(a, w)]) hnd.2 ?_]
    · simp
    · intro k hk
      rw [akeys_append]
      simp only [List.mem_append]
      push_neg
      constructor
      · exact hdis k (by simp [hknd, hk])
      · simp [akeys]
        intro he
        exact hnd.1 (he ▸ hk)

/-- C8 (amended): `main` stores the CRS as its proj4 projection string in
place of the raw descriptor object and appends exactly the six
processing-provenance attributes; every original attribute is carried
forward provided its key is not one of the six provenance keys — an
original attribute with a provenance name would be overwritten instead. -/
theorem c8_provenance_attrs (attrs : Attrs) (c : CRS) (args : Args)
    (now : String)
    (habs : ∀ k, k ∈ akeys (provenanceAttrs args now) → k ∉ akeys attrs) :
    ∃ out, mainFinalize attrs (.crsObj c) args now =
        some (out, .projStr c.proj4) ∧
      out = attrs ++ provenanceAttrs args now ∧
      (∀ k v, alookup attrs k = some v → alookup out k = some v) ∧
      (∀ k v, alookup (provenanceAttrs args now) k = some v →
        alookup out k = some v) := by
  have hnd : (akeys (provenanceAttrs args now)).Nodup := by
    have he : akeys (provenanceAttrs args now) =
        ["PREPROCESS_WRFRUN", "PREPROCESS_CASE_NAME",
         "PREPROCESS_FILE_PREFIX", "PREPROCESS_LEVS",
         "PREPROCESS_INTERP_VAR", "PREPROCESS_TIMESTAMP"] := rfl
    rw [he]
    decide
  have hupd : aupdate attrs (provenanceAttrs args now) =
      attrs ++ provenanceAttrs args now :=
    aupdate_disjoint _ _ hnd habs
  refine ⟨aupdate attrs (provenanceAttrs args now), rfl, hupd, ?_, ?_⟩
  · intro k v hv
    rw [hupd]
    exact alookup_append_left _ _ _ _ hv
  · intro k v hv
    rw [hupd]
    have hm : k ∈ akeys (provenanceAttrs args now) :=
      (mem_akeys_iff_lookup _ _).mpr ⟨v, hv⟩
    rw [alookup_append_right _ _ _ (habs k hm)]
    exact hv

/-- C8 counterexample: an input dataset whose attributes already contain a
key named `PREPROCESS_LEVS` does not have that attribute carried forward —
the update overwrites it with the requested level expression. -/
theorem c8_counterexample :
    (mainFinalize [("TITLE", "OUTPUT FROM WRF"), ("PREPROCESS_LEVS", "old")]
        (.crsObj ⟨"+proj=lcc"⟩)
        ⟨"run", "case", "wrfout_d01", "np.arange(100, 2000, 100)",
          "geopotential_height"⟩ "2026-10-12").map
      (fun o => alookup o.1 "PREPROCESS_LEVS") =
        some (some "np.arange(100, 2000, 100)") ∧
    alookup [("TITLE", "OUTPUT FROM WRF"), ("PREPROCESS_LEVS", "old")]
      "PREPROCESS_LEVS" = some "old" :=
  ⟨by decide, by decide⟩

theorem c8_provenance_attrs_witness :
    ∃ out, mainFinalize [("TITLE", "OUTPUT FROM WRF")]
        (.crsObj ⟨"+proj=lcc"⟩)
        ⟨"run", "case", "wrfout_d01", "np.arange(100, 2000, 100)",
          "geopotential_height"⟩ "2026-10-12" =
        some (out, .projStr "+proj=lcc") ∧
      out = [("TITLE", "OUTPUT FROM WRF")] ++
        provenanceAttrs ⟨"run", "case", "wrfout_d01",
          "np.arange(100, 2000, 100)", "geopotential_height"⟩ "2026-10-12" ∧
      (∀ k v, alookup [("TITLE", "OUTPUT FROM WRF")] k = some v →
        alookup out k = some v) ∧
      (∀ k v, alookup (provenanceAttrs ⟨"run", "case", "wrfout_d01",
          "np.arange(100, 2000, 100)", "geopotential_height"⟩
          "2026-10-12") k = some v → alookup out k = some v) :=
  c8_provenance_attrs [("TITLE", "OUTPUT FROM WRF")] ⟨"+proj=lcc"⟩
    ⟨"run", "case", "wrfout_d01", "np.arange(100, 2000, 100)",
      "geopotential_height"⟩ "2026-10-12" (by decide)

end FatimaWrf
